import Mathlib

/- Verification of the mp4box crate's core: the box-header reader and tree
builder (src/parser.rs) and the sample-table reconstruction engine
(src/samples.rs), over a shallow embedding.  Machine integers (u32/u64/i32)
are embedded as Nat/Int; the places where the Rust code explicitly clamps
(`min(u32::MAX)`, `saturating_add_signed`, `saturating_sub`) are embedded
with explicit clamps.  Fallible Rust code (`Result`) is embedded as
`Except`; `anyhow` error messages are kept as the source's strings. -/

namespace Mp4Box

/-- Numeric bound: u32::MAX. -/
def u32MAX : Nat := 4294967295

/-- Numeric bound: u64::MAX. -/
def u64MAX : Nat := 18446744073709551615

/-- Embedding of `u64::saturating_add_signed(self, rhs: i64)`: the signed sum
clamped into the u64 range (clamps below at 0, above at u64::MAX). -/
def saturatingAddSigned (a : Nat) (b : Int) : Nat :=
  min ((a + b).toNat) u64MAX

/- Structured sample-table data, from src/registry.rs.  Only the fields read
by the sample engine (src/samples.rs) are carried; the `version`, `flags` and
`entry_count` metadata fields of the Rust structs are read by no embedded
function and are omitted. -/

/-- One entry of the Decoding Time-to-Sample Box (registry.rs `SttsEntry`). -/
structure SttsEntry where
  sample_count : Nat
  sample_delta : Nat
deriving DecidableEq

/-- Decoding Time-to-Sample Box data (registry.rs `SttsData`). -/
structure SttsData where
  entries : List SttsEntry
deriving DecidableEq

/-- One entry of the Composition Time-to-Sample Box (registry.rs `CttsEntry`);
`sample_offset` is an i32, embedded as Int. -/
structure CttsEntry where
  sample_count : Nat
  sample_offset : Int
deriving DecidableEq

/-- Composition Time-to-Sample Box data (registry.rs `CttsData`). -/
structure CttsData where
  entries : List CttsEntry
deriving DecidableEq

/-- One entry of the Sample-to-Chunk Box (registry.rs `StscEntry`). -/
structure StscEntry where
  first_chunk : Nat
  samples_per_chunk : Nat
  sample_description_index : Nat
deriving DecidableEq

/-- Sample-to-Chunk Box data (registry.rs `StscData`). -/
structure StscData where
  entries : List StscEntry
deriving DecidableEq

/-- Sample Size Box data (registry.rs `StszData`). -/
structure StszData where
  sample_size : Nat
  sample_count : Nat
  sample_sizes : List Nat
deriving DecidableEq

/-- Sync Sample Box data (registry.rs `StssData`). -/
structure StssData where
  sample_numbers : List Nat
deriving DecidableEq

/-- Chunk Offset Box data (registry.rs `StcoData`, 32-bit offsets). -/
structure StcoData where
  chunk_offsets : List Nat
deriving DecidableEq

/-- 64-bit Chunk Offset Box data (registry.rs `Co64Data`). -/
structure Co64Data where
  chunk_offsets : List Nat
deriving DecidableEq

/-- Sample Description Box data (registry.rs `StsdData`); none of its fields
are read by the sample engine, so only the entry count is carried. -/
structure StsdData where
  entry_count : Nat
deriving DecidableEq

/-- The per-track aggregate of decoded sample tables (samples.rs
`SampleTables`). -/
structure SampleTables where
  stsd : Option StsdData
  stts : Option SttsData
  ctts : Option CttsData
  stsc : Option StscData
  stsz : Option StszData
  stss : Option StssData
  stco : Option StcoData
  co64 : Option Co64Data
deriving DecidableEq

/-- One reconstructed sample (samples.rs `SampleInfo`).  The `start_time: f64`
field (a floating-point quotient) is not embedded; no claim concerns it. -/
structure SampleInfo where
  index : Nat
  dts : Nat
  pts : Nat
  duration : Nat
  rendered_offset : Int
  file_offset : Nat
  size : Nat
  is_sync : Bool
deriving DecidableEq

/-- samples.rs `get_sample_size`: uniform size when `sample_size > 0`, else
the per-sample array with fallback 0. -/
def get_sample_size (stsz : Option StszData) (index : Nat) : Nat :=
  match stsz with
  | some stsz =>
    if stsz.sample_size > 0 then stsz.sample_size
    else
      match stsz.sample_sizes.get? index with
      | some s => s
      | none => 0
  | none => 0

/-- samples.rs `is_sync_sample`: membership of the (1-based) sample number in
the stss table; every sample is sync when the table is absent. -/
def is_sync_sample (stss : Option StssData) (sample_number : Nat) : Bool :=
  match stss with
  | some stss => stss.sample_numbers.contains sample_number
  | none => true

/-- The entry-scanning loop of samples.rs `get_sample_duration_from_stts`:
`current` is the running sample counter (`current_sample` in the source). -/
def sttsScan : List SttsEntry → Nat → Nat → Option Nat
  | [], _, _ => none
  | e :: rest, current, i =>
    if i < current + e.sample_count then some e.sample_delta
    else sttsScan rest (current + e.sample_count) i

/-- samples.rs `get_sample_duration_from_stts`: scan the run-length entries;
if no entry covers the index, fall back to the last entry's delta. -/
def get_sample_duration_from_stts (stts : SttsData) (sample_index : Nat) : Option Nat :=
  match sttsScan stts.entries 0 sample_index with
  | some d => some d
  | none => stts.entries.getLast?.map (·.sample_delta)

/-- The entry-scanning loop of samples.rs `get_composition_offset_from_ctts`. -/
def cttsScan : List CttsEntry → Nat → Nat → Option Int
  | [], _, _ => some 0
  | e :: rest, current, i =>
    if i < current + e.sample_count then some e.sample_offset
    else cttsScan rest (current + e.sample_count) i

/-- samples.rs `get_composition_offset_from_ctts`: scan the run-length
entries; an uncovered index yields offset 0 (the source's final `Some(0)`). -/
def get_composition_offset_from_ctts (ctts : CttsData) (sample_index : Nat) : Option Int :=
  cttsScan ctts.entries 0 sample_index

/-- Outcome of the chunk-locating loop inside samples.rs
`get_sample_file_offset` (the mutable loop state at exit). -/
structure ChunkLoc where
  chunk_index : Nat
  samples_per_chunk : Nat
  sample_offset_in_range : Nat
  chunk_offset_in_range : Nat
  current_sample : Nat
deriving DecidableEq

/-- The `for (i, entry) in stsc.entries` loop of `get_sample_file_offset`.
`current` is `current_sample` (starts at 1), `spc` the current
`samples_per_chunk` (starts at 0).  On break the loop state is returned;
otherwise `current_sample` advances, clamped at u32::MAX as in the source
(`.min(u32::MAX as u64) as u32`).  The u32 subtractions of the source are
embedded as truncated Nat subtraction. -/
def findChunkLoop : List StscEntry → Nat → Nat → Nat → Nat → ChunkLoc
  | [], _, _, current, spc => ⟨0, spc, 0, 0, current⟩
  | e :: rest, chunk_count, target, current, _spc =>
    let next_first_chunk :=
      match rest with
      | next :: _ => next.first_chunk
      | [] => chunk_count + 1
    let spc := e.samples_per_chunk
    let chunks_with_this_config := next_first_chunk - e.first_chunk
    let samples_in_this_range := chunks_with_this_config * spc
    if current + samples_in_this_range > target then
      let sor := target - current
      let cor := sor / spc
      ⟨e.first_chunk - 1 + cor, spc, sor, cor, current⟩
    else
      findChunkLoop rest chunk_count target (min (current + samples_in_this_range) u32MAX) spc

/-- The chunk-offset table selection of `get_sample_file_offset`: prefer the
64-bit table, else the 32-bit table (widened), else none. -/
def chunkOffsetsOf (tables : SampleTables) : Option (List Nat) :=
  match tables.co64 with
  | some co64 => some co64.chunk_offsets
  | none =>
    match tables.stco with
    | some stco => some stco.chunk_offsets
    | none => none

/-- The variable-size summation loop of `get_sample_file_offset`: sum
`sizes[start+i]` for `i < n`, skipping (adding nothing for) out-of-range
indices, exactly as the source's `if sample_idx < stsz.sample_sizes.len()`
guard does. -/
def sumSizes (sizes : List Nat) (start : Nat) (n : Nat) : Nat :=
  match n with
  | 0 => 0
  | m + 1 => sumSizes sizes start m + ((sizes.get? (start + m)).getD 0)

/-- samples.rs `get_sample_file_offset`: locate the chunk holding 1-based
sample `sample_index + 1` via the stsc entries, then add the intra-chunk
cumulative size to the chunk's base offset.  Returns 0 whenever stsc, stsz or
both chunk-offset tables are missing, or the located chunk index is out of
bounds. -/
def get_sample_file_offset (tables : SampleTables) (sample_index : Nat) : Nat :=
  match tables.stsc with
  | none => 0
  | some stsc =>
  match tables.stsz with
  | none => 0
  | some stsz =>
  match chunkOffsetsOf tables with
  | none => 0
  | some offsets =>
    let chunk_count := offsets.length
    let target_sample := sample_index + 1
    let loc := findChunkLoop stsc.entries chunk_count target_sample 1 0
    if loc.chunk_index ≥ chunk_count then 0
    else
      let chunk_offset := (offsets.get? loc.chunk_index).getD 0
      let sample_in_chunk := loc.sample_offset_in_range % loc.samples_per_chunk
      let chunk_start_sample :=
        loc.current_sample - 1 + loc.chunk_offset_in_range * loc.samples_per_chunk
      let offset_in_chunk :=
        if stsz.sample_size > 0 then sample_in_chunk * stsz.sample_size
        else if stsz.sample_sizes ≠ [] then sumSizes stsz.sample_sizes chunk_start_sample sample_in_chunk
        else 0
      chunk_offset + offset_in_chunk

/-- The synthesized fallback duration of samples.rs `build_sample_info`:
`timescale / 24`, or 1000 when the timescale is 0. -/
def default_duration (timescale : Nat) : Nat :=
  if timescale > 0 then timescale / 24 else 1000

/-- The per-sample duration as chosen in the `build_sample_info` loop. -/
def durationOf (tables : SampleTables) (timescale : Nat) (i : Nat) : Nat :=
  match tables.stts with
  | some stts => (get_sample_duration_from_stts stts i).getD (default_duration timescale)
  | none => default_duration timescale

/-- The per-sample composition offset as chosen in the `build_sample_info`
loop. -/
def compOffsetOf (tables : SampleTables) (i : Nat) : Int :=
  match tables.ctts with
  | some ctts => (get_composition_offset_from_ctts ctts i).getD 0
  | none => 0

/-- One iteration of the `build_sample_info` loop: the `SampleInfo` record
constructed for sample `i` with running decode time `dts`. -/
def mkSample (tables : SampleTables) (timescale : Nat) (i : Nat) (dts : Nat) : SampleInfo :=
  { index := i
    dts := dts
    pts := saturatingAddSigned dts (compOffsetOf tables i)
    duration := durationOf tables timescale i
    rendered_offset := compOffsetOf tables i
    file_offset := get_sample_file_offset tables i
    size := get_sample_size tables.stsz i
    is_sync := is_sync_sample tables.stss (i + 1) }

/-- The `for i in 0..sample_count` loop of `build_sample_info`: `n` samples
remain, `i` is the next index, `dts` the running decode time (`current_dts`),
advanced by each sample's duration. -/
def buildSamples (tables : SampleTables) (timescale : Nat) : Nat → Nat → Nat → List SampleInfo
  | 0, _, _ => []
  | n + 1, i, dts =>
    mkSample tables timescale i dts ::
      buildSamples tables timescale n (i + 1) (dts + durationOf tables timescale i)

/-- samples.rs `build_sample_info`: an absent stsz yields `Ok` of the empty
list; otherwise stsz's `sample_count` drives the loop.  The source's body has
no failing path, so the result is always `Except.ok`. -/
def build_sample_info (tables : SampleTables) (timescale : Nat) :
    Except String (List SampleInfo) :=
  match tables.stsz with
  | none => .ok []
  | some stsz => .ok (buildSamples tables timescale stsz.sample_count 0 0)

/- The box-tree view consumed by the sample engine: crate::Box (api.rs).
Of its fields, samples.rs reads only `typ`, `structured_data` and
`children`; the offset/size/name metadata is read by no embedded function
and is omitted. -/

/-- Track Header Box data (registry.rs `TkhdData`); only `track_id` is read
by the sample engine. -/
structure TkhdData where
  track_id : Nat
deriving DecidableEq

/-- Media Header Box data (registry.rs `MdhdData`); the sample engine reads
`timescale` and `duration` (the source widens `duration: u32` to u64). -/
structure MdhdData where
  timescale : Nat
  duration : Nat
deriving DecidableEq

/-- Handler Reference Box data (registry.rs `HdlrData`); only `handler_type`
is read by the sample engine. -/
structure HdlrData where
  handler_type : String
deriving DecidableEq

/-- registry.rs `StructuredData`: the closed set of structured decodings. -/
inductive StructuredData where
  | SampleDescription : StsdData → StructuredData
  | DecodingTimeToSample : SttsData → StructuredData
  | CompositionTimeToSample : CttsData → StructuredData
  | SampleToChunk : StscData → StructuredData
  | SampleSize : StszData → StructuredData
  | SyncSample : StssData → StructuredData
  | ChunkOffset : StcoData → StructuredData
  | ChunkOffset64 : Co64Data → StructuredData
  | MediaHeader : MdhdData → StructuredData
  | HandlerReference : HdlrData → StructuredData
  | TrackHeader : TkhdData → StructuredData

/-- crate::Box (api.rs), restricted to the fields the sample engine reads. -/
inductive Box where
  | mk : String → Option StructuredData → Option (List Box) → Box

/-- The `typ` field of a crate::Box. -/
def Box.typ : Box → String
  | .mk t _ _ => t

/-- The `structured_data` field of a crate::Box. -/
def Box.structured_data : Box → Option StructuredData
  | .mk _ sd _ => sd

/-- The `children` field of a crate::Box. -/
def Box.children : Box → Option (List Box)
  | .mk _ _ cs => cs

/-- samples.rs `TrackSamples`. -/
structure TrackSamples where
  track_id : Nat
  handler_type : String
  timescale : Nat
  duration : Nat
  sample_count : Nat
  samples : List SampleInfo

/-- The child-scanning loop of samples.rs `find_track_id`: the first `tkhd`
child carrying `TrackHeader` structured data yields its track id; a `tkhd`
without that data is passed over. -/
def findTrackIdLoop : List Box → Except String Nat
  | [] => .error "No tkhd box found or track ID could not be parsed"
  | c :: rest =>
    if c.typ = "tkhd" then
      match c.structured_data with
      | some (.TrackHeader d) => .ok d.track_id
      | _ => findTrackIdLoop rest
    else findTrackIdLoop rest

/-- samples.rs `find_track_id`. -/
def find_track_id (trak : Box) : Except String Nat :=
  match trak.children with
  | some children => findTrackIdLoop children
  | none => .error "No tkhd box found or track ID could not be parsed"

/-- The inner loop of samples.rs `find_media_info`, updating the
(handler_type, timescale, duration) state from `mdhd` and `hdlr` children. -/
def scanMdiaChildren : List Box → String × Nat × Nat → String × Nat × Nat
  | [], st => st
  | c :: rest, (h, ts, d) =>
    let st1 : String × Nat × Nat :=
      if c.typ = "mdhd" then
        match c.structured_data with
        | some (.MediaHeader m) => (h, m.timescale, m.duration)
        | _ => (h, ts, d)
      else (h, ts, d)
    let st2 : String × Nat × Nat :=
      if c.typ = "hdlr" then
        match c.structured_data with
        | some (.HandlerReference hd) => (hd.handler_type, st1.2.1, st1.2.2)
        | _ => st1
      else st1
    scanMdiaChildren rest st2

/-- The outer loop of samples.rs `find_media_info`: the first `mdia` child
that has children is scanned (defaults "vide"/1000/0); with no such child
the defaults are returned. -/
def findMediaInfoLoop : List Box → Except String (String × Nat × Nat)
  | [] => .ok ("vide", 1000, 0)
  | c :: rest =>
    if c.typ = "mdia" then
      match c.children with
      | some mcs => .ok (scanMdiaChildren mcs ("vide", 1000, 0))
      | none => findMediaInfoLoop rest
    else findMediaInfoLoop rest

/-- samples.rs `find_media_info`. -/
def find_media_info (trak : Box) : Except String (String × Nat × Nat) :=
  match trak.children with
  | some cs => findMediaInfoLoop cs
  | none => .ok ("vide", 1000, 0)

/-- The innermost loop of samples.rs `find_stbl_box`: first `stbl` child of a
`minf`. -/
def findStblInMinf : List Box → Option Box
  | [] => none
  | c :: rest => if c.typ = "stbl" then some c else findStblInMinf rest

/-- The middle loop of samples.rs `find_stbl_box`: search each `minf` child
(that has children) of an `mdia`. -/
def findStblInMdia : List Box → Option Box
  | [] => none
  | c :: rest =>
    if c.typ = "minf" then
      match c.children with
      | some mcs =>
        match findStblInMinf mcs with
        | some b => some b
        | none => findStblInMdia rest
      | none => findStblInMdia rest
    else findStblInMdia rest

/-- The outer loop of samples.rs `find_stbl_box`: search each `mdia` child
(that has children) of the `trak`. -/
def findStblInTrak : List Box → Option Box
  | [] => none
  | c :: rest =>
    if c.typ = "mdia" then
      match c.children with
      | some mcs =>
        match findStblInMdia mcs with
        | some b => some b
        | none => findStblInTrak rest
      | none => findStblInTrak rest
    else findStblInTrak rest

/-- samples.rs `find_stbl_box`: navigate trak → mdia → minf → stbl, failing
with the source's "stbl box not found" message when absent. -/
def find_stbl_box (trak : Box) : Except String Box :=
  match trak.children with
  | some cs =>
    match findStblInTrak cs with
    | some b => .ok b
    | none => .error "stbl box not found"
  | none => .error "stbl box not found"

/-- The match arms of samples.rs `extract_sample_tables`: record one
structured decoding into the aggregate (header/handler/track data ignored). -/
def applyStructured (tables : SampleTables) (sd : StructuredData) : SampleTables :=
  match sd with
  | .SampleDescription d => { tables with stsd := some d }
  | .DecodingTimeToSample d => { tables with stts := some d }
  | .CompositionTimeToSample d => { tables with ctts := some d }
  | .SampleToChunk d => { tables with stsc := some d }
  | .SampleSize d => { tables with stsz := some d }
  | .SyncSample d => { tables with stss := some d }
  | .ChunkOffset d => { tables with stco := some d }
  | .ChunkOffset64 d => { tables with co64 := some d }
  | .MediaHeader _ => tables
  | .HandlerReference _ => tables
  | .TrackHeader _ => tables

/-- The all-absent initial `SampleTables` of `extract_sample_tables`. -/
def emptyTables : SampleTables := ⟨none, none, none, none, none, none, none, none⟩

/-- The child loop of samples.rs `extract_sample_tables`. -/
def extractTablesLoop : List Box → SampleTables → SampleTables
  | [], t => t
  | c :: rest, t =>
    match c.structured_data with
    | some sd => extractTablesLoop rest (applyStructured t sd)
    | none => extractTablesLoop rest t

/-- samples.rs `extract_sample_tables`; the source's body has no failing
path. -/
def extract_sample_tables (stbl : Box) : Except String SampleTables :=
  match stbl.children with
  | some cs => .ok (extractTablesLoop cs emptyTables)
  | none => .ok emptyTables

/-- samples.rs `extract_track_samples`.  The `reader` parameter of the source
is passed through to `build_sample_info`, which ignores it (`_reader`), so it
is dropped here.  Every failure of a lookup step propagates via `?`. -/
def extract_track_samples (trak : Box) : Except String (Option TrackSamples) := do
  let track_id ← find_track_id trak
  let mi ← find_media_info trak
  let stbl ← find_stbl_box trak
  let tables ← extract_sample_tables stbl
  let samples ← build_sample_info tables mi.2.1
  pure (some { track_id := track_id, handler_type := mi.1, timescale := mi.2.1,
               duration := mi.2.2, sample_count := samples.length, samples := samples })

/-- The trak-iteration core of samples.rs `track_samples_from_reader`
(lines 166–176): each trak is passed to `extract_track_samples`; a `None`
result is skipped, a `Some` is collected, and an error aborts the whole
iteration via `?`. -/
def tracksFromTrakList : List Box → Except String (List TrackSamples)
  | [] => .ok []
  | t :: rest => do
    match ← extract_track_samples t with
    | some ts => do
      let r ← tracksFromTrakList rest
      pure (ts :: r)
    | none => tracksFromTrakList rest

/- The byte-source and parser embedding (src/parser.rs, src/boxes.rs).  The
seekable byte source is a byte list plus a cursor; `read_exact` fails when
fewer bytes remain, `seek` always succeeds (as for files/cursors). -/

/-- A seekable byte source: immutable bytes plus the cursor position. -/
structure Reader where
  data : List Nat
  pos : Nat
deriving DecidableEq

/-- Read exactly `n` bytes at the cursor, advancing it; fails (like Rust's
`read_exact`) when fewer than `n` bytes remain. -/
def readBytes (r : Reader) (n : Nat) : Option (List Nat × Reader) :=
  if r.pos + n ≤ r.data.length then
    some ((r.data.drop r.pos).take n, ⟨r.data, r.pos + n⟩)
  else none

/-- Big-endian value of a byte list. -/
def beVal (bs : List Nat) : Nat := bs.foldl (fun a b => a * 256 + b) 0

/-- Read one byte (`read_u8`). -/
def readU8 (r : Reader) : Option (Nat × Reader) :=
  (readBytes r 1).map (fun p => (beVal p.1, p.2))

/-- Read a big-endian u32 (`read_u32::<BigEndian>`). -/
def readU32 (r : Reader) : Option (Nat × Reader) :=
  (readBytes r 4).map (fun p => (beVal p.1, p.2))

/-- Read a big-endian u64 (`read_u64::<BigEndian>`). -/
def readU64 (r : Reader) : Option (Nat × Reader) :=
  (readBytes r 8).map (fun p => (beVal p.1, p.2))

/-- The byte list of a four-character code written as a string. -/
def cc (s : String) : List Nat := s.data.map Char.toNat

/-- The `uuid` type code (the literal bytes b"uuid"). -/
def uuidCC : List Nat := cc "uuid"

/-- boxes.rs `BoxHeader`; the `typ` four-character code and the optional
16-byte uuid are byte lists. -/
structure BoxHeader where
  size : Nat
  typ : List Nat
  uuid : Option (List Nat)
  header_size : Nat
  start : Nat
deriving DecidableEq

/-- parser.rs `ParseError`; the `Io` variant's payload (the underlying
`std::io::Error`) is dropped. -/
inductive ParseError where
  | IoError : ParseError
  | InvalidSize : ParseError
deriving DecidableEq

/-- The reading phase of parser.rs `read_box_header`: all the reads the
source performs before its final size check, in source order — 32-bit size,
type code, optional large size (when the 32-bit field is the sentinel 1),
optional 16-byte uuid (when the type is b"uuid") — plus the header-size
computation.  `none` is an I/O failure of one of the reads. -/
def readHeaderFields (r : Reader) : Option (BoxHeader × Reader) :=
  let start := r.pos
  match readU32 r with
  | none => none
  | some (size32, r1) =>
  match readBytes r1 4 with
  | none => none
  | some (typ, r2) =>
  match (if size32 = 1 then readU64 r2 else some (size32, r2)) with
  | none => none
  | some (size, r3) =>
  match (if typ = uuidCC then (readBytes r3 16).map (fun p => (some p.1, p.2))
         else some (none, r3)) with
  | none => none
  | some (uuid, r4) =>
    let header_size :=
      if size32 = 1 then (if typ = uuidCC then 8 + 8 + 16 else 8 + 8)
      else (if typ = uuidCC then 8 + 16 else 8)
    some (⟨size, typ, uuid, header_size, start⟩, r4)

/-- parser.rs `read_box_header`: read the header fields, then fail with
`InvalidSize` exactly when the declared size is non-zero and smaller than the
computed header width. -/
def read_box_header (r : Reader) : Except ParseError (BoxHeader × Reader) :=
  match readHeaderFields r with
  | none => .error .IoError
  | some (h, r4) =>
    if h.size ≠ 0 ∧ h.size < h.header_size then .error .InvalidSize
    else .ok (h, r4)

mutual
/-- boxes.rs `NodeKind` (FullBox: version, flags, data_offset, data_len;
Leaf/Unknown: data_offset, data_len). -/
inductive NodeKind where
  | Container : List BoxRef → NodeKind
  | FullBox : Nat → Nat → Nat → Nat → NodeKind
  | Leaf : Nat → Nat → NodeKind
  | Unknown : Nat → Nat → NodeKind
/-- boxes.rs `BoxRef`: a header plus its node kind. -/
inductive BoxRef where
  | mk : BoxHeader → NodeKind → BoxRef
end

/-- The `hdr` field of a `BoxRef`. -/
def BoxRef.hdr : BoxRef → BoxHeader
  | .mk h _ => h

/-- The `kind` field of a `BoxRef`. -/
def BoxRef.kind : BoxRef → NodeKind
  | .mk _ k => k

/-- The container four-character codes of parser.rs `is_container`. -/
def containerTypes : List (List Nat) :=
  [cc "moov", cc "trak", cc "mdia", cc "minf", cc "stbl", cc "edts",
   cc "udta", cc "meta", cc "moof", cc "traf", cc "mfra", cc "sinf",
   cc "ipro", cc "schi", cc "dinf", cc "iprp", cc "iloc",
   cc "tref", cc "meco", cc "mere", cc "iref", cc "pitm",
   cc "mvex", cc "stsd"]

/-- parser.rs `is_container`. -/
def is_container (h : BoxHeader) : Bool := containerTypes.contains h.typ

/-- The four-character codes matched by parser.rs `is_full_box` before its
`stsd` exclusion. -/
def fullBoxTypes : List (List Nat) :=
  [cc "mvhd", cc "tkhd", cc "mdhd", cc "hdlr", cc "vmhd", cc "smhd",
   cc "nmhd", cc "dref", cc "stsd", cc "stts", cc "ctts", cc "stsc",
   cc "stsz", cc "stz2", cc "stco", cc "co64", cc "stss", cc "stsh",
   cc "elst", cc "url ", cc "urn ", cc "tfhd", cc "trun", cc "mfhd",
   cc "tfdt", cc "mehd", cc "trex", cc "pssh", cc "sidx", cc "mdat"]

/-- parser.rs `is_full_box`: membership in the list, excluding `stsd` (which
is special-cased as a container). -/
def is_full_box (h : BoxHeader) : Bool :=
  fullBoxTypes.contains h.typ && !(h.typ == cc "stsd")

/-- The box-end resolution of parser.rs `parse_children`: `parent_end` for
the size-0 sentinel, else `start + size`. -/
def boxEnd (parent_end : Nat) (h : BoxHeader) : Nat :=
  if h.size = 0 then parent_end else h.start + h.size

/-- parser.rs `parse_children`, with an explicit fuel argument standing for
the (in Rust, unbounded) loop/recursion depth; `none` means the fuel ran
out, never a behavior of the source.  Each loop iteration reads a header at
the cursor, resolves `box_end`, classifies (recursing into containers,
reading version/flags of FullBoxes), seeks to `box_end` and continues; the
final reader holds the cursor position after the loop.  The `data_len`
computations use Nat subtraction, matching the source's `saturating_sub`. -/
def parse_children : Nat → Reader → Nat → Option (Except ParseError (List BoxRef × Reader))
  | 0, _, _ => none
  | fuel + 1, r, parent_end =>
    if r.pos < parent_end then
      match read_box_header r with
      | .error e => some (.error e)
      | .ok (h, _r1) =>
        let box_end := boxEnd parent_end h
        let content_start := h.start + h.header_size
        let kindRes : Option (Except ParseError NodeKind) :=
          if is_container h then
            match parse_children fuel ⟨r.data, content_start⟩ box_end with
            | none => none
            | some (.error e) => some (.error e)
            | some (.ok (kids, _)) => some (.ok (.Container kids))
          else if is_full_box h then
            match readU8 ⟨r.data, content_start⟩ with
            | none => some (.error .IoError)
            | some (version, rc1) =>
              match readBytes rc1 3 with
              | none => some (.error .IoError)
              | some (fb, rc2) =>
                some (.ok (.FullBox version (beVal fb) rc2.pos (box_end - rc2.pos)))
          else
            let data_offset := content_start
            let data_len := box_end - data_offset
            if h.typ = uuidCC then some (.ok (.Unknown data_offset data_len))
            else some (.ok (.Leaf data_offset data_len))
        match kindRes with
        | none => none
        | some (.error e) => some (.error e)
        | some (.ok kind) =>
          match parse_children fuel ⟨r.data, box_end⟩ parent_end with
          | none => none
          | some (.error e) => some (.error e)
          | some (.ok (rest, rEnd)) => some (.ok (.mk h kind :: rest, rEnd))
    else some (.ok ([], r))

mutual
/-- Size validity of one tree node: its header's declared size is not the
invalid combination (non-zero yet smaller than the header width), and the
same holds inside it. -/
def boxSizeOk : BoxRef → Bool
  | .mk h k => !(decide (h.size ≠ 0) && decide (h.size < h.header_size)) && kindSizeOk k
/-- Size validity inside a node kind (recursing into containers). -/
def kindSizeOk : NodeKind → Bool
  | .Container kids => boxListSizeOk kids
  | .FullBox _ _ _ _ => true
  | .Leaf _ _ => true
  | .Unknown _ _ => true
/-- Size validity of every node of a forest. -/
def boxListSizeOk : List BoxRef → Bool
  | [] => true
  | b :: bs => boxSizeOk b && boxListSizeOk bs
end

/-- Sibling extents tile the byte range from `start` to `fin` consecutively:
each node starts where its predecessor's resolved box end lies.  This gives
both "no overlap between sibling extents" and the exact sum of extents. -/
def extentsChain (parent_end : Nat) : Nat → List BoxRef → Nat → Prop
  | start, [], fin => fin = start
  | start, b :: bs, fin =>
    b.hdr.start = start ∧ extentsChain parent_end (boxEnd parent_end b.hdr) bs fin

/-- The final cursor position of a successful `parse_children` run. -/
def parseFinalPos (res : Option (Except ParseError (List BoxRef × Reader))) : Option Nat :=
  match res with
  | some (.ok (_, r)) => some r.pos
  | _ => none

/-- The sum of the children's box extents of a successful `parse_children`
run (each child's extent being its resolved box end minus its start). -/
def parseExtentSum (parent_end : Nat) (res : Option (Except ParseError (List BoxRef × Reader))) :
    Option Nat :=
  match res with
  | some (.ok (kids, _)) => some ((kids.map (fun b => boxEnd parent_end b.hdr - b.hdr.start)).sum)
  | _ => none

/- Specification-side definitions (written from spec.md §4.4, for the
refinement claims) and concrete example data from spec.md §8. -/

/-- Cumulative sample count of the first `j` run-length entries (the prefix
sum the spec's "first entry whose cumulative sample count exceeds i" refers
to). -/
def cumulativeOf (counts : List Nat) (j : Nat) : Nat := (counts.take j).sum

/-- Specification-side chunk location (spec.md §4.4 step 7): walk the
sample-to-chunk entries accumulating how many samples the chunks of each
entry's range cover (`(next_entry.first_chunk − this_entry.first_chunk) ×
samples_per_chunk`, or "all remaining chunks" for the last entry) until the
accumulated count would exceed the 1-based `target`; inside the located
range, the 0-based chunk index is `first_chunk − 1 + (target − running) /
samples_per_chunk`.  Returns (chunk index, 1-based number of the chunk's
first sample, samples_per_chunk), or `none` when the entries cover fewer
than `target` samples.  `current` is the 1-based number of the first sample
covered by the remaining entries. -/
def spec_locate_chunk : List StscEntry → Nat → Nat → Nat → Option (Nat × Nat × Nat)
  | [], _, _, _ => none
  | e :: rest, chunk_count, target, current =>
    let next_first :=
      match rest with
      | next :: _ => next.first_chunk
      | [] => chunk_count + 1
    let covered := (next_first - e.first_chunk) * e.samples_per_chunk
    if target < current + covered then
      let k := (target - current) / e.samples_per_chunk
      some (e.first_chunk - 1 + k, current + k * e.samples_per_chunk, e.samples_per_chunk)
    else spec_locate_chunk rest chunk_count target (current + covered)

/-- Specification-side intra-chunk offset (spec.md §4.4 step 7): the sum of
the sizes of the samples of the chunk that precede 1-based sample `target`,
the chunk's first sample being `firstSample` — the uniform size when
declared, else the per-sample size array. -/
def spec_intra_chunk_offset (stsz : StszData) (firstSample target : Nat) : Nat :=
  if stsz.sample_size > 0 then (target - firstSample) * stsz.sample_size
  else
    ((List.range (target - firstSample)).map
      (fun j => (stsz.sample_sizes.get? (firstSample - 1 + j)).getD 0)).sum

/-- Total number of samples covered by a sample-to-chunk table's entries
(with the same "all remaining chunks" reading of the last entry).  Bounding
`1 + this` by u32::MAX makes the source's `.min(u32::MAX as u64)` clamp in
`get_sample_file_offset` inert. -/
def stscCovered : List StscEntry → Nat → Nat
  | [], _ => 0
  | e :: rest, chunk_count =>
    ((match rest with
      | next :: _ => next.first_chunk
      | [] => chunk_count + 1) - e.first_chunk) * e.samples_per_chunk
      + stscCovered rest chunk_count

/-- The worked sample-size table of spec.md §8. -/
def exStsz : StszData := ⟨0, 3, [1000, 2000, 3000]⟩

/-- The worked example of spec.md §8: stsz {sample_size=0, sample_count=3,
sizes=[1000,2000,3000]}, stsc {(first_chunk=1, samples_per_chunk=3)},
chunk offsets [5000]. -/
def exC1tables : SampleTables :=
  { emptyTables with
    stsc := some ⟨[⟨1, 3, 1⟩]⟩
    stsz := some exStsz
    stco := some ⟨[5000]⟩ }

/-- A sample-size table declaring 1 uniform-size sample. -/
def exStszOne : StszData := ⟨100, 1, []⟩

/-- Tables whose single sample has composition offset −100 at decode time 0:
the signed sum DTS + offset is negative. -/
def exC2tables : SampleTables :=
  { emptyTables with
    stsz := some exStszOne
    ctts := some ⟨[⟨1, -100⟩]⟩ }

/-- A sample-size table declaring 3 uniform-size samples. -/
def exStszThree : StszData := ⟨100, 3, []⟩

/-- The sync-sample example of spec.md §8: sample_numbers=[1,3] with 3
samples. -/
def exC9tables : SampleTables :=
  { emptyTables with
    stsz := some exStszThree
    stss := some ⟨[1, 3]⟩ }

/-- A trak box with a valid tkhd and an mdia carrying mdhd and hdlr, but no
minf/stbl anywhere beneath it. -/
def exC6trak : Box :=
  .mk "trak" none (some
    [.mk "tkhd" (some (.TrackHeader ⟨7⟩)) none,
     .mk "mdia" none (some
       [.mk "mdhd" (some (.MediaHeader ⟨600, 0⟩)) none,
        .mk "hdlr" (some (.HandlerReference ⟨"vide"⟩)) none])])

/-- The bytes of the four-character code "free". -/
def freeCC : List Nat := [102, 114, 101, 101]

/-- Eight bytes declaring a box of total size 16 and type "free": a header
whose declared extent (16) overruns a parent range that ends at 9. -/
def exC4data : List Nat := [0, 0, 0, 16] ++ freeCC

/-- Eight bytes declaring a box of non-zero size 4, smaller than the 8-byte
header width. -/
def exC3data : List Nat := [0, 0, 0, 4] ++ freeCC

/- Theorems. -/

/-- The `build_sample_info` loop produces exactly as many samples as it is
asked for. -/
theorem buildSamples_length (tables : SampleTables) (ts : Nat) :
    ∀ n i dts, (buildSamples tables ts n i dts).length = n := by
  intro n
  induction n with
  | zero => intro i dts; rfl
  | succ m ih => intro i dts; simp [buildSamples, ih]

/-- Every sample the `build_sample_info` loop produces is `mkSample` at some
index and running decode time. -/
theorem mem_buildSamples (tables : SampleTables) (ts : Nat) :
    ∀ n i dts s, s ∈ buildSamples tables ts n i dts → ∃ j d, s = mkSample tables ts j d := by
  intro n
  induction n with
  | zero => intro i dts s hs; simp [buildSamples] at hs
  | succ m ih =>
    intro i dts s hs
    simp only [buildSamples, List.mem_cons] at hs
    rcases hs with h | h
    · exact ⟨i, dts, h⟩
    · exact ih _ _ _ h

/-- C7: `build_sample_info` returns successfully in both cases: an absent
sample-size table yields `Ok` of the empty sequence (not an error), and a
present one yields a sequence whose length equals exactly its declared
`sample_count`. -/
theorem claim_C7 :
    ∀ (tables : SampleTables) (ts : Nat),
      (build_sample_info tables ts).isOk = true ∧
      (tables.stsz = none → build_sample_info tables ts = .ok []) ∧
      (∀ stsz l, tables.stsz = some stsz → build_sample_info tables ts = .ok l →
        l.length = stsz.sample_count) := by
  intro tables ts
  refine ⟨?_, ?_, ?_⟩
  · cases h : tables.stsz <;> simp [build_sample_info, h, Except.isOk, Except.toBool]
  · intro h; simp [build_sample_info, h]
  · intro stsz l h hl
    simp only [build_sample_info, h] at hl
    cases hl
    exact buildSamples_length tables ts _ 0 0

/-- Witness for C7 at the spec.md §8 sync example (3 declared samples). -/
theorem claim_C7_witness :
    (buildSamples exC9tables 24 3 0 0).length = 3 :=
  (claim_C7 exC9tables 24).2.2 exStszThree _ rfl rfl

/-- C9: a produced sample's sync flag is true iff the 1-based sample number
`index + 1` is listed in the sync-sample table, every sample being sync when
the table is absent; on the spec.md §8 example (sample_numbers=[1,3], 3
samples) the flags are [true, false, true]. -/
theorem claim_C9 :
    (∀ (tables : SampleTables) (ts : Nat) (l : List SampleInfo) (s : SampleInfo),
        build_sample_info tables ts = .ok l → s ∈ l →
        (s.is_sync = true ↔
          (tables.stss = none ∨
            ∃ stss, tables.stss = some stss ∧ (s.index + 1) ∈ stss.sample_numbers))) ∧
    (build_sample_info exC9tables 24).toOption.map (fun l => l.map (·.is_sync)) =
      some [true, false, true] := by
  constructor
  · intro tables ts l s hl hs
    have hok : ∃ stszv, tables.stsz = some stszv := by
      cases h : tables.stsz with
      | none =>
        simp only [build_sample_info, h] at hl
        cases hl
        simp at hs
      | some v => exact ⟨v, rfl⟩
    obtain ⟨stszv, hstsz⟩ := hok
    simp only [build_sample_info, hstsz] at hl
    cases hl
    obtain ⟨j, d, rfl⟩ := mem_buildSamples tables ts _ 0 0 s hs
    cases h : tables.stss with
    | none => simp [mkSample, is_sync_sample, h]
    | some stss =>
      simp only [mkSample, is_sync_sample, h]
      simp [List.contains, List.elem_iff]
  · rfl

/-- Witness for C9: the first sample of the spec.md §8 sync example is sync
because sample number 1 is listed. -/
theorem claim_C9_witness :
    (mkSample exC9tables 24 0 0).is_sync = true :=
  (claim_C9.1 exC9tables 24 (buildSamples exC9tables 24 3 0 0)
    (mkSample exC9tables 24 0 0) rfl (List.mem_cons_self _ _)).2
    (Or.inr ⟨⟨[1, 3]⟩, rfl, by decide⟩)

/-- C10: `get_sample_file_offset` returns 0 — not an error and not an
index-times-constant approximation — whenever the sample-to-chunk table is
missing, the sample-size table is missing, both chunk-offset tables are
missing, or the located chunk index lies beyond the end of the chunk-offset
table. -/
theorem claim_C10 :
    ∀ (tables : SampleTables) (i : Nat),
      (tables.stsc = none → get_sample_file_offset tables i = 0) ∧
      (tables.stsz = none → get_sample_file_offset tables i = 0) ∧
      (tables.stco = none → tables.co64 = none → get_sample_file_offset tables i = 0) ∧
      (∀ stsc stsz offsets,
        tables.stsc = some stsc → tables.stsz = some stsz →
        chunkOffsetsOf tables = some offsets →
        offsets.length ≤ (findChunkLoop stsc.entries offsets.length (i + 1) 1 0).chunk_index →
        get_sample_file_offset tables i = 0) := by
  intro tables i
  refine ⟨?_, ?_, ?_, ?_⟩
  · intro h; simp [get_sample_file_offset, h]
  · intro h
    cases hc : tables.stsc <;> simp [get_sample_file_offset, h, hc]
  · intro h1 h2
    cases hc : tables.stsc with
    | none => simp [get_sample_file_offset, hc]
    | some stsc =>
      cases hz : tables.stsz with
      | none => simp [get_sample_file_offset, hc, hz]
      | some stsz => simp [get_sample_file_offset, hc, hz, chunkOffsetsOf, h1, h2]
  · intro stsc stsz offsets hc hz ho hge
    simp only [get_sample_file_offset, hc, hz, ho]
    rw [if_pos hge]

/-- Witness for C10: the empty table aggregate yields offset 0 for sample 0. -/
theorem claim_C10_witness :
    get_sample_file_offset emptyTables 0 = 0 :=
  (claim_C10 emptyTables 0).1 rfl

/-- A sample of a successful `build_sample_info` run is `mkSample` at some
index and running decode time. -/
theorem build_ok_mem (tables : SampleTables) (ts : Nat) (l : List SampleInfo)
    (s : SampleInfo) (hl : build_sample_info tables ts = .ok l) (hs : s ∈ l) :
    ∃ j d, s = mkSample tables ts j d := by
  cases h : tables.stsz with
  | none =>
    simp only [build_sample_info, h] at hl
    cases hl
    simp at hs
  | some stsz =>
    simp only [build_sample_info, h] at hl
    cases hl
    exact mem_buildSamples tables ts _ 0 0 s hs

/-- Unfolding the cumulative count across the head entry. -/
theorem cumulativeOf_cons (c : Nat) (cs : List Nat) (j : Nat) :
    cumulativeOf (c :: cs) (j + 1) = c + cumulativeOf cs j := by
  simp [cumulativeOf]

/-- The first entry's cumulative count. -/
theorem cumulativeOf_one (c : Nat) (cs : List Nat) :
    cumulativeOf (c :: cs) 1 = c := by
  simp [cumulativeOf]

/-- The stts scan yields the delta of the first entry whose cumulative
sample count (offset by the accumulator) exceeds the index. -/
theorem sttsScan_found :
    ∀ (entries : List SttsEntry) (cur i j : Nat) (e : SttsEntry),
      entries.get? j = some e →
      i < cur + cumulativeOf (entries.map (·.sample_count)) (j + 1) →
      (∀ j' < j, ¬ i < cur + cumulativeOf (entries.map (·.sample_count)) (j' + 1)) →
      sttsScan entries cur i = some e.sample_delta := by
  intro entries
  induction entries with
  | nil => intro cur i j e he; simp at he
  | cons a rest ih =>
    intro cur i j e he hlt hmin
    cases j with
    | zero =>
      simp only [List.get?] at he
      cases he
      rw [List.map_cons, cumulativeOf_one] at hlt
      simp only [sttsScan]
      rw [if_pos hlt]
    | succ j' =>
      have h0 := hmin 0 (Nat.succ_pos _)
      rw [List.map_cons, cumulativeOf_one] at h0
      simp only [sttsScan]
      rw [if_neg h0]
      refine ih (cur + a.sample_count) i j' e he ?_ ?_
      · rw [List.map_cons, cumulativeOf_cons] at hlt
        omega
      · intro k hk
        have := hmin (k + 1) (Nat.succ_lt_succ hk)
        rw [List.map_cons, cumulativeOf_cons] at this
        omega

/-- When no entry's cumulative count exceeds the index, the stts scan falls
off the end of the table. -/
theorem sttsScan_notFound :
    ∀ (entries : List SttsEntry) (cur i : Nat),
      (∀ j < entries.length, ¬ i < cur + cumulativeOf (entries.map (·.sample_count)) (j + 1)) →
      sttsScan entries cur i = none := by
  intro entries
  induction entries with
  | nil => intro cur i _; rfl
  | cons a rest ih =>
    intro cur i h
    have h0 := h 0 (Nat.succ_pos _)
    rw [List.map_cons, cumulativeOf_one] at h0
    simp only [sttsScan]
    rw [if_neg h0]
    refine ih (cur + a.sample_count) i ?_
    intro j hj
    have := h (j + 1) (Nat.succ_lt_succ hj)
    rw [List.map_cons, cumulativeOf_cons] at this
    omega

/-- `get_sample_duration_from_stts` on a covered index: the delta of the
first entry whose cumulative count exceeds it. -/
theorem get_sample_duration_found (stts : SttsData) (i j : Nat) (e : SttsEntry)
    (he : stts.entries.get? j = some e)
    (hlt : i < cumulativeOf (stts.entries.map (·.sample_count)) (j + 1))
    (hmin : ∀ j' < j, ¬ i < cumulativeOf (stts.entries.map (·.sample_count)) (j' + 1)) :
    get_sample_duration_from_stts stts i = some e.sample_delta := by
  unfold get_sample_duration_from_stts
  rw [sttsScan_found stts.entries 0 i j e he (by omega) (by intro k hk; have := hmin k hk; omega)]

/-- `get_sample_duration_from_stts` on an uncovered index: the last entry's
delta (or nothing at all when the table has no entries). -/
theorem get_sample_duration_notFound (stts : SttsData) (i : Nat)
    (h : ∀ j < stts.entries.length,
      ¬ i < cumulativeOf (stts.entries.map (·.sample_count)) (j + 1)) :
    get_sample_duration_from_stts stts i = stts.entries.getLast?.map (·.sample_delta) := by
  unfold get_sample_duration_from_stts
  rw [sttsScan_notFound stts.entries 0 i (by intro k hk; have := h k hk; omega)]

/-- The ctts scan yields the offset of the first entry whose cumulative
sample count (offset by the accumulator) exceeds the index. -/
theorem cttsScan_found :
    ∀ (entries : List CttsEntry) (cur i j : Nat) (e : CttsEntry),
      entries.get? j = some e →
      i < cur + cumulativeOf (entries.map (·.sample_count)) (j + 1) →
      (∀ j' < j, ¬ i < cur + cumulativeOf (entries.map (·.sample_count)) (j' + 1)) →
      cttsScan entries cur i = some e.sample_offset := by
  intro entries
  induction entries with
  | nil => intro cur i j e he; simp at he
  | cons a rest ih =>
    intro cur i j e he hlt hmin
    cases j with
    | zero =>
      simp only [List.get?] at he
      cases he
      rw [List.map_cons, cumulativeOf_one] at hlt
      simp only [cttsScan]
      rw [if_pos hlt]
    | succ j' =>
      have h0 := hmin 0 (Nat.succ_pos _)
      rw [List.map_cons, cumulativeOf_one] at h0
      simp only [cttsScan]
      rw [if_neg h0]
      refine ih (cur + a.sample_count) i j' e he ?_ ?_
      · rw [List.map_cons, cumulativeOf_cons] at hlt
        omega
      · intro k hk
        have := hmin (k + 1) (Nat.succ_lt_succ hk)
        rw [List.map_cons, cumulativeOf_cons] at this
        omega

/-- When no entry's cumulative count exceeds the index, the ctts scan ends
in the source's final `Some(0)`. -/
theorem cttsScan_notFound :
    ∀ (entries : List CttsEntry) (cur i : Nat),
      (∀ j < entries.length, ¬ i < cur + cumulativeOf (entries.map (·.sample_count)) (j + 1)) →
      cttsScan entries cur i = some 0 := by
  intro entries
  induction entries with
  | nil => intro cur i _; rfl
  | cons a rest ih =>
    intro cur i h
    have h0 := h 0 (Nat.succ_pos _)
    rw [List.map_cons, cumulativeOf_one] at h0
    simp only [cttsScan]
    rw [if_neg h0]
    refine ih (cur + a.sample_count) i ?_
    intro j hj
    have := h (j + 1) (Nat.succ_lt_succ hj)
    rw [List.map_cons, cumulativeOf_cons] at this
    omega

/-- C8: the duration assigned to a produced sample is the delta of the first
time-to-sample entry whose cumulative sample count exceeds its index; an
index beyond all entries falls back to the last entry's delta; an absent
time-to-sample table falls back to timescale / 24, or 1000 when the
timescale is 0. -/
theorem claim_C8 :
    ∀ (tables : SampleTables) (ts : Nat) (l : List SampleInfo) (s : SampleInfo),
      build_sample_info tables ts = .ok l → s ∈ l →
      (tables.stts = none → s.duration = default_duration ts) ∧
      (0 < ts → default_duration ts = ts / 24) ∧
      (ts = 0 → default_duration ts = 1000) ∧
      (∀ stts j e, tables.stts = some stts →
        stts.entries.get? j = some e →
        s.index < cumulativeOf (stts.entries.map (·.sample_count)) (j + 1) →
        (∀ j' < j, ¬ s.index < cumulativeOf (stts.entries.map (·.sample_count)) (j' + 1)) →
        s.duration = e.sample_delta) ∧
      (∀ stts, tables.stts = some stts →
        (∀ j < stts.entries.length,
          ¬ s.index < cumulativeOf (stts.entries.map (·.sample_count)) (j + 1)) →
        s.duration = (stts.entries.getLast?.map (·.sample_delta)).getD (default_duration ts)) := by
  intro tables ts l s hl hs
  obtain ⟨j, d, rfl⟩ := build_ok_mem tables ts l s hl hs
  refine ⟨?_, ?_, ?_, ?_, ?_⟩
  · intro h; simp [mkSample, durationOf, h]
  · intro h; simp [default_duration, h]
  · intro h; simp [default_duration, h]
  · intro stts k e hstts he hlt hmin
    simp only [mkSample] at hlt hmin ⊢
    simp only [durationOf, hstts]
    rw [get_sample_duration_found stts j k e he hlt hmin]
    rfl
  · intro stts hstts hnone
    simp only [mkSample] at hnone ⊢
    simp only [durationOf, hstts]
    rw [get_sample_duration_notFound stts j hnone]

/-- Witness for C8 at the spec.md §8 sync example, whose tables carry no
time-to-sample table: the fallback duration 24 / 24 = 1 is used. -/
theorem claim_C8_witness :
    (mkSample exC9tables 24 0 0).duration = default_duration 24 :=
  (claim_C8 exC9tables 24 (buildSamples exC9tables 24 3 0 0)
    (mkSample exC9tables 24 0 0) rfl (List.mem_cons_self _ _)).1 rfl

/-- C2 (amended): a produced sample's presentation time is the signed sum of
its decode time and its composition offset saturated into the u64 range —
exact whenever the signed sum lies in [0, u64::MAX], clamped to 0 when the
sum is negative — the offset being the run-length ctts lookup (0 when the
table is absent or the index is beyond all entries). -/
theorem claim_C2 :
    ∀ (tables : SampleTables) (ts : Nat) (l : List SampleInfo) (s : SampleInfo),
      build_sample_info tables ts = .ok l → s ∈ l →
      s.pts = saturatingAddSigned s.dts s.rendered_offset ∧
      ((0 : Int) ≤ (s.dts : Int) + s.rendered_offset →
        (s.dts : Int) + s.rendered_offset ≤ (u64MAX : Int) →
        (s.pts : Int) = (s.dts : Int) + s.rendered_offset) ∧
      ((s.dts : Int) + s.rendered_offset < 0 → s.pts = 0) ∧
      (tables.ctts = none → s.rendered_offset = 0) ∧
      (∀ ctts j e, tables.ctts = some ctts → ctts.entries.get? j = some e →
        s.index < cumulativeOf (ctts.entries.map (·.sample_count)) (j + 1) →
        (∀ j' < j, ¬ s.index < cumulativeOf (ctts.entries.map (·.sample_count)) (j' + 1)) →
        s.rendered_offset = e.sample_offset) ∧
      (∀ ctts, tables.ctts = some ctts →
        (∀ j < ctts.entries.length,
          ¬ s.index < cumulativeOf (ctts.entries.map (·.sample_count)) (j + 1)) →
        s.rendered_offset = 0) := by
  intro tables ts l s hl hs
  obtain ⟨j, d, rfl⟩ := build_ok_mem tables ts l s hl hs
  refine ⟨rfl, ?_, ?_, ?_, ?_, ?_⟩
  · intro h1 h2
    simp only [mkSample] at h1 h2 ⊢
    simp only [saturatingAddSigned]
    omega
  · intro h
    simp only [mkSample] at h ⊢
    simp only [saturatingAddSigned]
    omega
  · intro h; simp [mkSample, compOffsetOf, h]
  · intro ctts k e hctts he hlt hmin
    simp only [mkSample] at hlt hmin ⊢
    simp only [compOffsetOf, hctts]
    rw [show get_composition_offset_from_ctts ctts j = some e.sample_offset from
      cttsScan_found ctts.entries 0 j k e he (by omega) (by intro b hb; have := hmin b hb; omega)]
    rfl
  · intro ctts hctts hnone
    simp only [mkSample] at hnone ⊢
    simp only [compOffsetOf, hctts]
    rw [show get_composition_offset_from_ctts ctts j = some 0 from
      cttsScan_notFound ctts.entries 0 j (by intro b hb; have := hnone b hb; omega)]
    rfl

/-- Witness for C2 at the negative-offset example: the clamp fires and the
pts is 0. -/
theorem claim_C2_witness :
    (mkSample exC2tables 30 0 0).pts =
      saturatingAddSigned (mkSample exC2tables 30 0 0).dts
        (mkSample exC2tables 30 0 0).rendered_offset :=
  (claim_C2 exC2tables 30 (buildSamples exC2tables 30 1 0 0)
    (mkSample exC2tables 30 0 0) rfl (List.mem_cons_self _ _)).1

/-- Counterexample to C2 as stated: with a single sample whose decode time
is 0 and whose ctts offset is −100, the engine's pts is 0, not the exact
(negative) signed sum −100 — the addition saturates at zero. -/
theorem claim_C2_counterexample :
    (build_sample_info exC2tables 30).toOption.map
        (fun l => l.map (fun s => ((s.pts : Int), (s.dts : Int) + s.rendered_offset))) =
      some [(0, -100)] ∧ (0 : Int) ≠ -100 :=
  ⟨rfl, by decide⟩

/-- The chunk-locating loop of `get_sample_file_offset` agrees with the
specification-side chunk location: when the spec locates the chunk for a
1-based `target` (and the accumulated counts stay below u32::MAX, so the
source's clamp is inert), the loop breaks in the same entry, with a
positive samples-per-chunk, and its exit state determines the same chunk
index and first-sample number. -/
theorem findChunkLoop_spec :
    ∀ (entries : List StscEntry) (chunk_count target current spc0 cIdx firstS spc : Nat),
      spec_locate_chunk entries chunk_count target current = some (cIdx, firstS, spc) →
      1 ≤ current → current ≤ target →
      current + stscCovered entries chunk_count ≤ u32MAX →
      0 < spc ∧ 1 ≤ firstS ∧ firstS ≤ target ∧
      ∃ cur, 1 ≤ cur ∧ cur ≤ target ∧
        firstS = cur + ((target - cur) / spc) * spc ∧
        findChunkLoop entries chunk_count target current spc0 =
          ⟨cIdx, spc, target - cur, (target - cur) / spc, cur⟩ := by
  intro entries
  induction entries with
  | nil =>
    intro cc target current spc0 cIdx firstS spc hspec
    intro _ _ _
    simp [spec_locate_chunk] at hspec
  | cons e rest ih =>
    intro cc target current spc0 cIdx firstS spc hspec h1 hct hbound
    simp only [spec_locate_chunk] at hspec
    simp only [findChunkLoop]
    simp only [stscCovered] at hbound
    simp only [gt_iff_lt]
    generalize hnf :
      (match rest with
       | next :: _ => next.first_chunk
       | [] => cc + 1) = nf at hspec hbound ⊢
    by_cases hcond : target < current + (nf - e.first_chunk) * e.samples_per_chunk
    · rw [if_pos hcond] at hspec
      rw [if_pos hcond]
      simp only [Option.some.injEq, Prod.mk.injEq] at hspec
      obtain ⟨hcI, hfS, hsp⟩ := hspec
      subst hcI
      subst hfS
      subst hsp
      have hcov : 0 < (nf - e.first_chunk) * e.samples_per_chunk := by omega
      have hspc : 0 < e.samples_per_chunk := by
        rcases Nat.eq_zero_or_pos e.samples_per_chunk with h0 | h0
        · rw [h0, Nat.mul_zero] at hcov
          exact absurd hcov (lt_irrefl 0)
        · exact h0
      have hdm := Nat.div_mul_le_self (target - current) e.samples_per_chunk
      exact ⟨hspc, by omega, by omega, current, h1, hct, rfl, rfl⟩
    · rw [if_neg hcond] at hspec
      rw [if_neg hcond]
      have hble : current + (nf - e.first_chunk) * e.samples_per_chunk ≤ u32MAX := by omega
      rw [Nat.min_eq_left hble]
      exact ih cc target _ e.samples_per_chunk cIdx firstS spc hspec (by omega) (by omega)
        (by omega)

/-- The guarded summation loop of `get_sample_file_offset` is the sum of the
(defaulted) sizes over an index range. -/
theorem sumSizes_eq_map_sum (sizes : List Nat) (start : Nat) :
    ∀ n, sumSizes sizes start n =
      ((List.range n).map (fun j => (sizes.get? (start + j)).getD 0)).sum := by
  intro n
  induction n with
  | zero => rfl
  | succ m ih => simp [sumSizes, List.range_succ, ih]

/-- Summing defaulted lookups of the empty size array gives 0. -/
theorem sum_getD_nil (s : Nat) :
    ∀ n, ((List.range n).map (fun j => ((([] : List Nat).get? (s + j)).getD 0))).sum = 0 := by
  intro n
  induction n with
  | zero => rfl
  | succ m ih => simp [List.range_succ, ih]

/-- C1: on tables carrying a sample-to-chunk table, a chunk-offset table and
a sample-size table, `get_sample_file_offset` for sample `i` is the base
offset of the chunk that the specification-side accumulation locates for
1-based sample `i+1`, plus the specification-side sum of the sizes of the
preceding samples of that chunk; and on the worked spec.md §8 example the
three offsets are exactly [5000, 6000, 8000]. -/
theorem claim_C1 :
    (∀ (tables : SampleTables) (stsc : StscData) (stsz : StszData) (offsets : List Nat)
        (i cIdx firstS spc : Nat),
      tables.stsc = some stsc →
      tables.stsz = some stsz →
      chunkOffsetsOf tables = some offsets →
      1 + stscCovered stsc.entries offsets.length ≤ u32MAX →
      spec_locate_chunk stsc.entries offsets.length (i + 1) 1 = some (cIdx, firstS, spc) →
      cIdx < offsets.length →
      get_sample_file_offset tables i =
        (offsets.get? cIdx).getD 0 + spec_intra_chunk_offset stsz firstS (i + 1)) ∧
    (List.range 3).map (get_sample_file_offset exC1tables) = [5000, 6000, 8000] := by
  constructor
  · intro tables stsc stsz offsets i cIdx firstS spc hc hz ho hbound hspec hlt
    obtain ⟨hspc, h1f, hft, cur, h1c, hcut, hfirst, hloop⟩ :=
      findChunkLoop_spec stsc.entries offsets.length (i + 1) 1 0 cIdx firstS spc hspec
        (le_refl 1) (by omega) (by omega)
    have hdm := Nat.div_mul_le_self (i + 1 - cur) spc
    have hmd := Nat.mod_add_div' (i + 1 - cur) spc
    have hmod : (i + 1 - cur) % spc = (i + 1) - firstS := by omega
    have hstart : cur - 1 + ((i + 1 - cur) / spc) * spc = firstS - 1 := by omega
    simp only [get_sample_file_offset, hc, hz, ho]
    rw [hloop]
    dsimp only
    rw [if_neg (by omega)]
    congr 1
    simp only [spec_intra_chunk_offset]
    by_cases hpos : stsz.sample_size > 0
    · rw [if_pos hpos, if_pos hpos, hmod]
    · rw [if_neg hpos, if_neg hpos]
      by_cases hsz : stsz.sample_sizes = []
      · rw [if_neg (by simp [hsz]), hsz, sum_getD_nil]
      · rw [if_pos hsz, hmod, hstart, sumSizes_eq_map_sum]
  · rfl

/-- Witness for C1 at the worked spec.md §8 example, sample index 1: chunk 0
at base offset 5000, preceded in the chunk by the 1000-byte sample 0. -/
theorem claim_C1_witness :
    get_sample_file_offset exC1tables 1 =
      (([5000] : List Nat).get? 0).getD 0 + spec_intra_chunk_offset exStsz 1 2 :=
  claim_C1.1 exC1tables ⟨[⟨1, 3, 1⟩]⟩ exStsz [5000] 1 0 1 3 rfl rfl rfl (by decide) rfl
    (by decide)

/-- Reading bytes preserves the data and advances the cursor by the count. -/
theorem readBytes_state (r : Reader) (n : Nat) (bs : List Nat) (r2 : Reader)
    (h : readBytes r n = some (bs, r2)) : r2.data = r.data ∧ r2.pos = r.pos + n := by
  unfold readBytes at h
  split at h
  · cases h; exact ⟨rfl, rfl⟩
  · cases h

/-- Reading a u32 preserves the data and advances the cursor by 4. -/
theorem readU32_state (r : Reader) (v : Nat) (r2 : Reader)
    (h : readU32 r = some (v, r2)) : r2.data = r.data ∧ r2.pos = r.pos + 4 := by
  unfold readU32 at h
  cases hb : readBytes r 4 with
  | none => rw [hb] at h; cases h
  | some p =>
    rw [hb] at h
    cases h
    exact readBytes_state r 4 p.1 p.2 hb

/-- Reading a u64 preserves the data and advances the cursor by 8. -/
theorem readU64_state (r : Reader) (v : Nat) (r2 : Reader)
    (h : readU64 r = some (v, r2)) : r2.data = r.data ∧ r2.pos = r.pos + 8 := by
  unfold readU64 at h
  cases hb : readBytes r 8 with
  | none => rw [hb] at h; cases h
  | some p =>
    rw [hb] at h
    cases h
    exact readBytes_state r 8 p.1 p.2 hb

/-- Everything a successful header-field read determines: the header starts
at the cursor, the reader data is unchanged, and the header width is 8 plus
8 exactly when the 32-bit size field held the sentinel 1 plus 16 exactly
when the type is the literal `uuid`. -/
theorem readHeaderFields_spec (r : Reader) (h : BoxHeader) (r4 : Reader)
    (hr : readHeaderFields r = some (h, r4)) :
    h.start = r.pos ∧ r4.data = r.data ∧
    (∀ s32 r1, readU32 r = some (s32, r1) →
      h.header_size = 8 + (if s32 = 1 then 8 else 0) + (if h.typ = uuidCC then 16 else 0)) := by
  unfold readHeaderFields at hr
  cases h32 : readU32 r with
  | none => rw [h32] at hr; cases hr
  | some p32 =>
    obtain ⟨s32, r1⟩ := p32
    rw [h32] at hr
    dsimp only at hr
    cases hb4 : readBytes r1 4 with
    | none => rw [hb4] at hr; cases hr
    | some p4 =>
      obtain ⟨typ, r2⟩ := p4
      rw [hb4] at hr
      dsimp only at hr
      have hd1 := readU32_state r s32 r1 h32
      have hd2 := readBytes_state r1 4 typ r2 hb4
      by_cases hs1 : s32 = 1
      · rw [if_pos hs1] at hr
        cases h64 : readU64 r2 with
        | none => rw [h64] at hr; cases hr
        | some p64 =>
          obtain ⟨sz, r3⟩ := p64
          rw [h64] at hr
          dsimp only at hr
          have hd3 := readU64_state r2 sz r3 h64
          by_cases hu : typ = uuidCC
          · rw [if_pos hu] at hr
            cases h16 : readBytes r3 16 with
            | none => rw [h16] at hr; cases hr
            | some p16 =>
              obtain ⟨u, r5⟩ := p16
              rw [h16] at hr
              simp only [Option.map] at hr
              have hd4 := readBytes_state r3 16 u r5 h16
              cases hr
              refine ⟨rfl, by rw [hd4.1, hd3.1, hd2.1, hd1.1], ?_⟩
              intro s32' r1' h32'
              cases h32'
              simp [hs1, hu]
          · rw [if_neg hu] at hr
            dsimp only at hr
            cases hr
            refine ⟨rfl, by rw [hd3.1, hd2.1, hd1.1], ?_⟩
            intro s32' r1' h32'
            cases h32'
            simp [hs1, hu]
      · rw [if_neg hs1] at hr
        dsimp only at hr
        by_cases hu : typ = uuidCC
        · rw [if_pos hu] at hr
          cases h16 : readBytes r2 16 with
          | none => rw [h16] at hr; cases hr
          | some p16 =>
            obtain ⟨u, r5⟩ := p16
            rw [h16] at hr
            simp only [Option.map] at hr
            have hd4 := readBytes_state r2 16 u r5 h16
            cases hr
            refine ⟨rfl, by rw [hd4.1, hd2.1, hd1.1], ?_⟩
            intro s32' r1' h32'
            cases h32'
            simp [hs1, hu]
        · rw [if_neg hu] at hr
          dsimp only at hr
          cases hr
          refine ⟨rfl, by rw [hd2.1, hd1.1], ?_⟩
          intro s32' r1' h32'
          cases h32'
          simp [hs1, hu]

/-- A successful `read_box_header` is exactly a successful field read whose
size check passes. -/
theorem read_box_header_ok (r : Reader) (h : BoxHeader) (rr : Reader)
    (hok : read_box_header r = .ok (h, rr)) :
    readHeaderFields r = some (h, rr) ∧ ¬(h.size ≠ 0 ∧ h.size < h.header_size) := by
  unfold read_box_header at hok
  cases hf : readHeaderFields r with
  | none => rw [hf] at hok; cases hok
  | some p =>
    obtain ⟨h', r4⟩ := p
    rw [hf] at hok
    dsimp only at hok
    by_cases hbad : h'.size ≠ 0 ∧ h'.size < h'.header_size
    · rw [if_pos hbad] at hok; cases hok
    · rw [if_neg hbad] at hok
      cases hok
      exact ⟨rfl, hbad⟩

/-- C5: a header successfully returned by `read_box_header` has width 8,
plus 8 exactly when the 32-bit size field held the large-size sentinel 1,
plus 16 exactly when the type code is the literal "uuid"; hence the width is
one of 8, 16, 24, 32. -/
theorem claim_C5 :
    ∀ (r r1 rr : Reader) (h : BoxHeader) (s32 : Nat),
      read_box_header r = .ok (h, rr) →
      readU32 r = some (s32, r1) →
      h.header_size = 8 + (if s32 = 1 then 8 else 0) + (if h.typ = uuidCC then 16 else 0) ∧
      (h.header_size = 8 ∨ h.header_size = 16 ∨ h.header_size = 24 ∨
        h.header_size = 32) := by
  intro r r1 rr h s32 hok h32
  obtain ⟨hf, -⟩ := read_box_header_ok r h rr hok
  have hs := (readHeaderFields_spec r h rr hf).2.2 s32 r1 h32
  refine ⟨hs, ?_⟩
  rw [hs]
  by_cases h1 : s32 = 1 <;> by_cases h2 : h.typ = uuidCC <;> simp [h1, h2]

/-- Witness for C5 on the size-16 "free" box header: no large size, no uuid,
width 8. -/
theorem claim_C5_witness :
    (⟨16, freeCC, none, 8, 0⟩ : BoxHeader).header_size =
        8 + (if (16 : Nat) = 1 then 8 else 0) +
          (if (⟨16, freeCC, none, 8, 0⟩ : BoxHeader).typ = uuidCC then 16 else 0) ∧
      ((⟨16, freeCC, none, 8, 0⟩ : BoxHeader).header_size = 8 ∨
        (⟨16, freeCC, none, 8, 0⟩ : BoxHeader).header_size = 16 ∨
        (⟨16, freeCC, none, 8, 0⟩ : BoxHeader).header_size = 24 ∨
        (⟨16, freeCC, none, 8, 0⟩ : BoxHeader).header_size = 32) :=
  claim_C5 ⟨exC4data, 0⟩ ⟨exC4data, 4⟩ ⟨exC4data, 8⟩ ⟨16, freeCC, none, 8, 0⟩ 16 rfl rfl

/-- One successful loop step of `parse_children`: either the cursor had
already reached `parent_end` (no node, reader untouched), or a header was
read at the cursor, a kind was classified (a container kind coming from a
successful recursive parse of the child range), the cursor jumped to the box
end, and the remaining siblings were parsed from there. -/
theorem parse_children_succ_ok :
    ∀ (n : Nat) (r : Reader) (pe : Nat) (kids : List BoxRef) (rEnd : Reader),
      parse_children (n + 1) r pe = some (.ok (kids, rEnd)) →
      (¬ r.pos < pe ∧ kids = [] ∧ rEnd = r) ∨
      (r.pos < pe ∧ ∃ h r1 kind rest,
        read_box_header r = .ok (h, r1) ∧
        ((∃ ckids rc, is_container h = true ∧
            parse_children n ⟨r.data, h.start + h.header_size⟩ (boxEnd pe h) =
              some (.ok (ckids, rc)) ∧
            kind = NodeKind.Container ckids) ∨ kindSizeOk kind = true) ∧
        parse_children n ⟨r.data, boxEnd pe h⟩ pe = some (.ok (rest, rEnd)) ∧
        kids = .mk h kind :: rest) := by
  intro n r pe kids rEnd hp
  rw [parse_children] at hp
  by_cases hlt : r.pos < pe
  · rw [if_pos hlt] at hp
    cases hrb : read_box_header r with
    | error e => rw [hrb] at hp; simp at hp
    | ok p =>
      obtain ⟨h, r1⟩ := p
      rw [hrb] at hp
      dsimp only at hp
      refine Or.inr ⟨hlt, ?_⟩
      by_cases hc : is_container h
      · rw [if_pos hc] at hp
        cases hpc : parse_children n ⟨r.data, h.start + h.header_size⟩ (boxEnd pe h) with
        | none => rw [hpc] at hp; simp at hp
        | some cres =>
          cases cres with
          | error ce => rw [hpc] at hp; simp at hp
          | ok cp =>
            obtain ⟨ckids, rc⟩ := cp
            rw [hpc] at hp
            dsimp only at hp
            cases hpr : parse_children n ⟨r.data, boxEnd pe h⟩ pe with
            | none => rw [hpr] at hp; simp at hp
            | some rres =>
              cases rres with
              | error re => rw [hpr] at hp; simp at hp
              | ok rp =>
                obtain ⟨rest, rE⟩ := rp
                rw [hpr] at hp
                dsimp only at hp
                cases hp
                exact ⟨h, r1, _, rest, rfl, Or.inl ⟨ckids, rc, hc, hpc, rfl⟩, hpr, rfl⟩
      · rw [if_neg hc] at hp
        by_cases hfb : is_full_box h
        · rw [if_pos hfb] at hp
          cases h8 : readU8 ⟨r.data, h.start + h.header_size⟩ with
          | none => rw [h8] at hp; simp at hp
          | some p8 =>
            obtain ⟨v, rc1⟩ := p8
            rw [h8] at hp
            dsimp only at hp
            cases h3 : readBytes rc1 3 with
            | none => rw [h3] at hp; simp at hp
            | some p3 =>
              obtain ⟨fb, rc2⟩ := p3
              rw [h3] at hp
              dsimp only at hp
              cases hpr : parse_children n ⟨r.data, boxEnd pe h⟩ pe with
              | none => rw [hpr] at hp; simp at hp
              | some rres =>
                cases rres with
                | error re => rw [hpr] at hp; simp at hp
                | ok rp =>
                  obtain ⟨rest, rE⟩ := rp
                  rw [hpr] at hp
                  dsimp only at hp
                  cases hp
                  exact ⟨h, r1, NodeKind.FullBox v (beVal fb) rc2.pos (boxEnd pe h - rc2.pos),
                    rest, rfl, Or.inr rfl, hpr, rfl⟩
        · rw [if_neg hfb] at hp
          by_cases hu : h.typ = uuidCC
          · rw [if_pos hu] at hp
            dsimp only at hp
            cases hpr : parse_children n ⟨r.data, boxEnd pe h⟩ pe with
            | none => rw [hpr] at hp; simp at hp
            | some rres =>
              cases rres with
              | error re => rw [hpr] at hp; simp at hp
              | ok rp =>
                obtain ⟨rest, rE⟩ := rp
                rw [hpr] at hp
                dsimp only at hp
                cases hp
                exact ⟨h, r1,
                  NodeKind.Unknown (h.start + h.header_size)
                    (boxEnd pe h - (h.start + h.header_size)),
                  rest, rfl, Or.inr rfl, hpr, rfl⟩
          · rw [if_neg hu] at hp
            dsimp only at hp
            cases hpr : parse_children n ⟨r.data, boxEnd pe h⟩ pe with
            | none => rw [hpr] at hp; simp at hp
            | some rres =>
              cases rres with
              | error re => rw [hpr] at hp; simp at hp
              | ok rp =>
                obtain ⟨rest, rE⟩ := rp
                rw [hpr] at hp
                dsimp only at hp
                cases hp
                exact ⟨h, r1,
                  NodeKind.Leaf (h.start + h.header_size)
                    (boxEnd pe h - (h.start + h.header_size)),
                  rest, rfl, Or.inr rfl, hpr, rfl⟩
  · rw [if_neg hlt] at hp
    cases hp
    exact Or.inl ⟨hlt, rfl, rfl⟩

/-- C3: `read_box_header` fails with the size-invalid error exactly when the
decoded size field is non-zero and strictly smaller than the computed header
width, and every node of a tree successfully built by `parse_children`
(containers included, recursively) has a size that is not that invalid
combination — an invalid box never produces a node. -/
theorem claim_C3 :
    (∀ r : Reader,
      read_box_header r = .error .InvalidSize ↔
        ∃ h r4, readHeaderFields r = some (h, r4) ∧ h.size ≠ 0 ∧
          h.size < h.header_size) ∧
    (∀ (fuel : Nat) (r : Reader) (parent_end : Nat) (kids : List BoxRef) (rEnd : Reader),
      parse_children fuel r parent_end = some (.ok (kids, rEnd)) →
      boxListSizeOk kids = true) := by
  constructor
  · intro r
    constructor
    · intro herr
      unfold read_box_header at herr
      cases hf : readHeaderFields r with
      | none => rw [hf] at herr; cases herr
      | some p =>
        obtain ⟨h, r4⟩ := p
        rw [hf] at herr
        dsimp only at herr
        by_cases hbad : h.size ≠ 0 ∧ h.size < h.header_size
        · exact ⟨h, r4, rfl, hbad.1, hbad.2⟩
        · rw [if_neg hbad] at herr; cases herr
    · rintro ⟨h, r4, hf, h0, hlt⟩
      unfold read_box_header
      rw [hf]
      dsimp only
      rw [if_pos ⟨h0, hlt⟩]
  · intro fuel
    induction fuel with
    | zero => intro r pe kids rEnd hp; simp [parse_children] at hp
    | succ n ih =>
      intro r pe kids rEnd hp
      rcases parse_children_succ_ok n r pe kids rEnd hp with
        ⟨-, rfl, rfl⟩ | ⟨hlt, h, r1, kind, rest, hrb, hkind, hpr, rfl⟩
      · rfl
      · have hrest := ih _ _ _ _ hpr
        have hhdr := (read_box_header_ok r h r1 hrb).2
        have hkindOk : kindSizeOk kind = true := by
          rcases hkind with ⟨ckids, rc, hc, hpc, rfl⟩ | hk
          · simpa [kindSizeOk] using ih _ _ _ _ hpc
          · exact hk
        simp only [boxListSizeOk, boxSizeOk, Bool.and_eq_true]
        refine ⟨⟨?_, hkindOk⟩, hrest⟩
        by_cases h0 : h.size ≠ 0
        · have hlt' : ¬ h.size < h.header_size := fun hl => hhdr ⟨h0, hl⟩
          simp [h0, hlt']
        · simp [h0]

/-- Witness for C3 on the size-4 "free" header bytes: a non-zero size 4
below the 8-byte width makes `read_box_header` fail with `InvalidSize`. -/
theorem claim_C3_witness :
    read_box_header ⟨exC3data, 0⟩ = .error .InvalidSize :=
  (claim_C3.1 ⟨exC3data, 0⟩).2
    ⟨⟨4, freeCC, none, 8, 0⟩, ⟨exC3data, 8⟩, rfl, by decide, by decide⟩

/-- Invariant of a successful `parse_children` run: the cursor never moves
backwards, the children tile the range from the initial to the final cursor
consecutively (so sibling extents cannot overlap), the extents sum to the
cursor displacement, and — when every child's resolved box end fits inside
`parent_end` — the final cursor stays at or before `parent_end`. -/
theorem parse_children_extents_inv :
    ∀ (fuel : Nat) (r : Reader) (pe : Nat) (kids : List BoxRef) (rEnd : Reader),
      parse_children fuel r pe = some (.ok (kids, rEnd)) →
      r.pos ≤ rEnd.pos ∧
      extentsChain pe r.pos kids rEnd.pos ∧
      ((kids.map (fun b => boxEnd pe b.hdr - b.hdr.start)).sum = rEnd.pos - r.pos) ∧
      (r.pos ≤ pe → (∀ b ∈ kids, boxEnd pe b.hdr ≤ pe) → rEnd.pos ≤ pe) := by
  intro fuel
  induction fuel with
  | zero => intro r pe kids rEnd hp; simp [parse_children] at hp
  | succ n ih =>
    intro r pe kids rEnd hp
    rcases parse_children_succ_ok n r pe kids rEnd hp with
      ⟨-, rfl, rfl⟩ | ⟨hlt, h, r1, kind, rest, hrb, -, hpr, rfl⟩
    · exact ⟨le_refl _, rfl, by simp, fun hpe _ => hpe⟩
    · have hstart : h.start = r.pos :=
        (readHeaderFields_spec r h r1 (read_box_header_ok r h r1 hrb).1).1
      have hbe : r.pos ≤ boxEnd pe h := by
        unfold boxEnd
        by_cases hs0 : h.size = 0
        · rw [if_pos hs0]; omega
        · rw [if_neg hs0]; omega
      obtain ⟨hmono, hchain, hsum, hbound⟩ := ih _ _ _ _ hpr
      have hmono' : boxEnd pe h ≤ rEnd.pos := hmono
      have hsum' :
          ((rest.map (fun b => boxEnd pe b.hdr - b.hdr.start)).sum =
            rEnd.pos - boxEnd pe h) := hsum
      refine ⟨by omega, ⟨hstart, hchain⟩, ?_, ?_⟩
      · simp only [List.map_cons, List.sum_cons, hsum']
        have hhdr : (BoxRef.mk h kind).hdr = h := rfl
        rw [hhdr]
        omega
      · intro hpe hall
        have hhead := hall _ (List.mem_cons_self _ _)
        have hhead' : boxEnd pe h ≤ pe := hhead
        exact hbound (by omega) (fun b hb => hall b (List.mem_cons_of_mem _ hb))

/-- C4 (amended): a successful `parse_children` run tiles the byte range
from the initial to the final cursor with the children's extents — siblings
never overlap and the extents sum to the cursor displacement — and,
provided every child's declared extent fits inside `parent_end` (which a
corrupt size field can violate), the cursor never ends past `parent_end`
and the extents sum to at most `parent_end` minus the content start. -/
theorem claim_C4 :
    ∀ (fuel : Nat) (r : Reader) (parent_end : Nat) (kids : List BoxRef) (rEnd : Reader),
      parse_children fuel r parent_end = some (.ok (kids, rEnd)) →
      extentsChain parent_end r.pos kids rEnd.pos ∧
      (kids.map (fun b => boxEnd parent_end b.hdr - b.hdr.start)).sum =
        rEnd.pos - r.pos ∧
      (r.pos ≤ parent_end → (∀ b ∈ kids, boxEnd parent_end b.hdr ≤ parent_end) →
        rEnd.pos ≤ parent_end ∧
        (kids.map (fun b => boxEnd parent_end b.hdr - b.hdr.start)).sum ≤
          parent_end - r.pos) := by
  intro fuel r pe kids rEnd hp
  obtain ⟨hmono, hchain, hsum, hbound⟩ := parse_children_extents_inv fuel r pe kids rEnd hp
  refine ⟨hchain, hsum, fun hpe hall => ⟨hbound hpe hall, ?_⟩⟩
  have := hbound hpe hall
  omega

/-- Witness for C4 on a well-formed single box: a size-16 "free" box parsed
inside a range ending exactly at 16 leaves the cursor at 16. -/
theorem claim_C4_witness :
    extentsChain 16 (0 : Nat)
        [BoxRef.mk ⟨16, freeCC, none, 8, 0⟩ (NodeKind.Leaf 8 8)] 16 ∧
      ([BoxRef.mk ⟨16, freeCC, none, 8, 0⟩ (NodeKind.Leaf 8 8)].map
          (fun b => boxEnd 16 b.hdr - b.hdr.start)).sum = 16 - 0 ∧
      (16 : Nat) ≤ 16 :=
  ⟨(claim_C4 2 ⟨exC4data, 0⟩ 16 _ ⟨exC4data, 16⟩ rfl).1,
   (claim_C4 2 ⟨exC4data, 0⟩ 16 _ ⟨exC4data, 16⟩ rfl).2.1,
   ((claim_C4 2 ⟨exC4data, 0⟩ 16 _ ⟨exC4data, 16⟩ rfl).2.2 (by decide)
      (by intro b hb; fin_cases hb; decide)).1⟩

/-- Counterexample to C4 as stated: the same size-16 "free" box parsed
inside a parent range ending at 9 leaves the cursor at 16 > 9, and the
children's extent sum 16 exceeds parent_end − content_start = 9. -/
theorem claim_C4_counterexample :
    parseFinalPos (parse_children 2 ⟨exC4data, 0⟩ 9) = some 16 ∧
      parseExtentSum 9 (parse_children 2 ⟨exC4data, 0⟩ 9) = some 16 ∧
      ¬((16 : Nat) ≤ 9) ∧ ¬((16 : Nat) ≤ 9 - 0) :=
  ⟨rfl, rfl, by decide, by decide⟩

/-- C6 (amended): a track whose stbl lookup fails — while its track id and
media info resolve — makes `extract_track_samples` return that error rather
than an empty sample sequence, and the caller's trak iteration propagates
it, aborting the remaining tracks. -/
theorem claim_C6 :
    ∀ (trak : Box) (tid : Nat) (mi : String × Nat × Nat) (msg : String),
      find_track_id trak = .ok tid →
      find_media_info trak = .ok mi →
      find_stbl_box trak = .error msg →
      extract_track_samples trak = .error msg ∧
      ∀ rest, tracksFromTrakList (trak :: rest) = .error msg := by
  intro trak tid mi msg h1 h2 h3
  have hext : extract_track_samples trak = .error msg := by
    unfold extract_track_samples
    rw [h1]
    simp only [Bind.bind, Except.bind]
    rw [h2]
    simp only []
    rw [h3]
  refine ⟨hext, fun rest => ?_⟩
  unfold tracksFromTrakList
  rw [hext]
  simp only [Bind.bind, Except.bind]

/-- Witness for C6 at the concrete stbl-less track. -/
theorem claim_C6_witness :
    extract_track_samples exC6trak = .error "stbl box not found" :=
  (claim_C6 exC6trak 7 ("vide", 600, 0) "stbl box not found" rfl rfl rfl).1

/-- Counterexample to C6 as stated: a trak with a valid tkhd and mdia but no
stbl makes `extract_track_samples` surface the error "stbl box not found"
(instead of yielding no samples), and the caller's iteration over the trak
list returns that error instead of skipping the track. -/
theorem claim_C6_counterexample :
    extract_track_samples exC6trak = .error "stbl box not found" ∧
      tracksFromTrakList [exC6trak] = .error "stbl box not found" :=
  ⟨rfl, rfl⟩

end Mp4Box
